import Mathlib

/-! # Connect-4: verification of the game engine, search agent and room protocol

Shallow embedding of the server game logic (server/src/index.ts), the
client-side board engine and computer opponent (the main App component),
and the server room registry.  A board is a list of 6 rows of 7 cells,
a cell holding 0 (empty), 1 (player P1 / Red) or 2 (player P2 / Yellow). -/

abbrev Board := List (List Nat)

/-- Read a cell at natural-number coordinates; missing indices read as 0. -/
def getN (b : Board) (r c : Nat) : Nat := (b.getD r []).getD c 0

/-- Read a cell at integer coordinates.  In the source every access
`board[r][c]` happens behind a bounds test, so a guarded read returning
0 when out of range is observationally identical. -/
def getCell (b : Board) (r c : Int) : Nat :=
  if 0 ≤ r ∧ 0 ≤ c then getN b r.toNat c.toNat else 0

/-- The assignment `board[r][c] = v`. -/
def setCell (b : Board) (r c v : Nat) : Board :=
  b.set r ((b.getD r []).set c v)

/-- The 6-rows-by-7-columns shape every game board has. -/
def BoardShape (b : Board) : Prop := b.length = 6 ∧ ∀ row ∈ b, row.length = 7

instance : DecidablePred BoardShape := fun b => by
  unfold BoardShape; infer_instance

/-- `emptyBoard` mirrors the 6x7 all-zero board builders in both sources. -/
def emptyBoard : Board := List.replicate 6 (List.replicate 7 0)

/-- The four direction table shared by the server `checkWin` and the client
`checkWinner`: horizontal, vertical, down-right diagonal, down-left diagonal. -/
def dirsList : List (Int × Int) := [(0, 1), (1, 0), (1, 1), (1, -1)]

inductive PlayerId
  | P1
  | P2
deriving DecidableEq, Repr

inductive GStatus
  | waiting
  | playing
  | won
  | draw
deriving DecidableEq, Repr

/-- The `lastMove` record `{ col, row, by }`. -/
structure MoveRec where
  col : Int
  row : Nat
  byPlayer : PlayerId
deriving DecidableEq, Repr

/-- The `players` presence record of the shared GameState type. -/
structure PlayersConn where
  p1conn : Bool
  p2conn : Bool
deriving DecidableEq, Repr

/-- The shared `GameState` type. -/
structure GameState where
  roomCode : String
  status : GStatus
  board : Board
  nextTurn : PlayerId
  winner : Option PlayerId
  lastMove : Option MoveRec
  players : PlayersConn
deriving DecidableEq, Repr

namespace Server

def otherPlayer : PlayerId → PlayerId
  | .P1 => .P2
  | .P2 => .P1

def cellValue : PlayerId → Nat
  | .P1 => 1
  | .P2 => 2

/-- The lowest-empty-row scan in the server `applyMove`: probe rows from the
bottom (`board.length - 1`) upwards and return the first empty one.
`findRowAux b col n` scans rows `n-1, n-2, ..., 0` in that order. -/
def findRowAux (b : Board) (col : Nat) : Nat → Option Nat
  | 0 => none
  | n + 1 => if getN b n col = 0 then some n else findRowAux b col n

def findRow (b : Board) (col : Nat) : Option Nat := findRowAux b col b.length

/-- `checkDraw`: the top row has no empty cell. -/
def checkDraw (b : Board) : Bool := (b.getD 0 []).all (fun cell => cell != 0)

/-- The continuation test of the `countDir` while loop: the current cell is
on the board and holds `val`. -/
def DirCond (b : Board) (val : Nat) (r c : Int) : Prop :=
  0 ≤ r ∧ r < (b.length : Int) ∧ 0 ≤ c ∧ c < ((b.getD 0 []).length : Int) ∧
    getCell b r c = val

instance (b : Board) (val : Nat) (r c : Int) : Decidable (DirCond b val r c) := by
  unfold DirCond; infer_instance

/-- The `countDir` while loop.  The loop body runs while `DirCond` holds;
the fuel `rows + cols + 2` is strictly more than the loop can ever iterate
(each step moves one row or one column in a fixed direction), so the
recursion always stops on the loop's own test. -/
def countDirAux (b : Board) (dr dc : Int) (val : Nat) : Int → Int → Nat → Nat
  | _, _, 0 => 0
  | r, c, fuel + 1 =>
    if DirCond b val r c
    then countDirAux b dr dc val (r + dr) (c + dc) fuel + 1
    else 0

def countDir (b : Board) (row col dr dc : Int) (val : Nat) : Nat :=
  countDirAux b dr dc val (row + dr) (col + dc) (b.length + (b.getD 0 []).length + 2)

/-- `checkWin board row col`: anchored win test, counting the contiguous run
through the placed cell in both directions along each of the four axes. -/
def checkWin (b : Board) (row col : Int) : Bool :=
  let val := getCell b row col
  if val = 0 then false
  else
    dirsList.any fun d =>
      decide (4 ≤ 1 + countDir b row col d.1 d.2 val + countDir b row col (-d.1) (-d.2) val)

/-- The server `applyMove`.  The TS function mutates `state` in place and
returns `{row}` or `{error}`; here it returns the updated state together
with the result. -/
def applyMove (state : GameState) (byP : PlayerId) (col : Int) :
    GameState × Except String Nat :=
  if state.status ≠ .playing then (state, .error ("Game is not in playing state"))
  else if state.nextTurn ≠ byP then (state, .error ("Not your turn"))
  else if col < 0 ∨ col > 6 then (state, .error ("Invalid column"))
  else
    match findRow state.board col.toNat with
    | none => (state, .error ("Column is full"))
    | some row =>
      let board := setCell state.board row col.toNat (cellValue byP)
      let st := { state with board := board, lastMove := some ⟨col, row, byP⟩ }
      if checkWin board row col then
        ({ st with status := .won, winner := some byP }, .ok row)
      else if checkDraw board then
        ({ st with status := .draw }, .ok row)
      else
        ({ st with nextTurn := otherPlayer byP }, .ok row)

/-- A fresh two-seat game in playing state (what a room's game looks like
once both players have connected, with an empty board). -/
def initialState : GameState :=
  { roomCode := ("")
  , status := .playing
  , board := emptyBoard
  , nextTurn := .P1
  , winner := none
  , lastMove := none
  , players := ⟨true, true⟩ }

/-- Game states reachable from the fresh game by successful `applyMove`
calls, indexed by the number of moves applied. -/
inductive Reachable : GameState → Nat → Prop
  | init : Reachable initialState 0
  | step {s : GameState} {n : Nat} {p : PlayerId} {col : Int} {s2 : GameState} {row : Nat} :
      Reachable s n → applyMove s p col = (s2, .ok row) → Reachable s2 (n + 1)

/-! ### Room registry and session handling -/

/-- A connected client handle. -/
structure Client where
  id : String
  roomCode : Option String
  playerId : Option PlayerId
deriving DecidableEq, Repr

/-- A room registry entry. -/
structure Room where
  code : String
  clients : List Client
  state : GameState
  createdAt : Int
  lastActiveAt : Int
deriving DecidableEq, Repr

/-- `pickPlayerId`: the next free seat, P1 before P2, or none if both taken. -/
def pickPlayerId (room : Room) : Option PlayerId :=
  let taken := room.clients.filterMap fun c => c.playerId
  if ¬ taken.contains PlayerId.P1 then some .P1
  else if ¬ taken.contains PlayerId.P2 then some .P2
  else none

/-- `updatePresence`: recompute the connected flags from the attached
clients; when both seats are connected and the game is still waiting,
start it with P1 to move. -/
def updatePresence (room : Room) : Room :=
  let c1 := room.clients.any fun c => c.playerId == some .P1
  let c2 := room.clients.any fun c => c.playerId == some .P2
  let st1 := { room.state with players := ⟨c1, c2⟩ }
  let st2 :=
    if c1 && c2 && (st1.status == GStatus.waiting)
    then { st1 with status := .playing, nextTurn := .P1 }
    else st1
  { room with state := st2 }

/-- Outbound protocol messages relevant to the join flow. -/
inductive ServerMsg
  | roomJoined (roomCode : String) (you : PlayerId) (state : GameState)
  | stateMsg (roomCode : String) (state : GameState)
  | errMsg (roomCode : Option String) (code : String) (message : String)
deriving DecidableEq, Repr

/-- The `rooms` map, as an association list keyed by room code. -/
def lookupRoom (rooms : List (String × Room)) (code : String) : Option Room :=
  (rooms.find? fun cr => cr.1 == code).map fun cr => cr.2

def setRoom (rooms : List (String × Room)) (code : String) (room : Room) :
    List (String × Room) :=
  rooms.map fun cr => if cr.1 == code then (code, room) else cr

/-- What the `join_room` handler produced: the updated registry, the updated
client handle and the messages sent, as (recipient client id, message)
pairs in send order. -/
structure JoinOutcome where
  rooms : List (String × Room)
  client : Client
  sends : List (String × ServerMsg)
deriving DecidableEq, Repr

/-- The `join_room` message handler.  `now` stands for `Date.now()`. -/
def handleJoinRoom (rooms : List (String × Room)) (client : Client) (roomCode : String)
    (now : Int) : JoinOutcome :=
  match lookupRoom rooms roomCode with
  | none =>
    ⟨rooms, client, [(client.id, .errMsg (some roomCode) ("ROOM_NOT_FOUND") ("Room not found"))]⟩
  | some room =>
    if client.roomCode.isSome then
      ⟨rooms, client,
        [(client.id, .errMsg (some roomCode) ("ALREADY_IN_ROOM") ("Already in a room"))]⟩
    else
      match pickPlayerId room with
      | none =>
        ⟨rooms, client, [(client.id, .errMsg (some roomCode) ("ROOM_FULL") ("Room is full"))]⟩
      | some slot =>
        let client2 : Client := { client with roomCode := some roomCode, playerId := some slot }
        let room2 := { room with clients := room.clients ++ [client2], lastActiveAt := now }
        let room3 := updatePresence room2
        ⟨setRoom rooms roomCode room3, client2,
          (client2.id, .roomJoined roomCode slot room3.state)
            :: room3.clients.map fun c => (c.id, .stateMsg roomCode room3.state)⟩

def ROOM_TTL_MS : Int := 10 * 60 * 1000

/-- One tick of the room garbage-collection interval: skip rooms with
clients, delete clientless rooms idle past the TTL. -/
def sweepTick (now : Int) (rooms : List (String × Room)) : List (String × Room) :=
  rooms.filter fun cr =>
    decide (0 < cr.2.clients.length) || ! decide (now - cr.2.lastActiveAt > ROOM_TTL_MS)

end Server

/-- Number of non-empty cells of the 6x7 grid. -/
def countNonEmpty (b : Board) : Nat :=
  ((List.range 6).map fun r => ((List.range 7).filter fun c => getN b r c != 0).length).sum

/-- Number of marks in column `c`. -/
def colCount (b : Board) (c : Nat) : Nat :=
  ((List.range 6).filter fun r => getN b r c != 0).length

/-- Within a column, every cell below an occupied cell is occupied. -/
def ColumnMono (b : Board) (c : Nat) : Prop :=
  ∀ r2, r2 < 6 → ∀ r1, r1 ≤ r2 → getN b r1 c ≠ 0 → getN b r2 c ≠ 0

/-- The column has no empty cell. -/
def ColumnFullP (b : Board) (c : Nat) : Prop := ∀ r, r < 6 → getN b r c ≠ 0

/-- The gravity invariant of the spec: a column is full iff its topmost row
is non-empty, and no cell below an occupied cell of the same column is empty. -/
def GravityInv (b : Board) : Prop :=
  ∀ c, c < 7 → ((ColumnFullP b c ↔ getN b 0 c ≠ 0) ∧ ColumnMono b c)

instance (b : Board) (c : Nat) : Decidable (ColumnMono b c) := by
  unfold ColumnMono; infer_instance

instance (b : Board) (c : Nat) : Decidable (ColumnFullP b c) := by
  unfold ColumnFullP; infer_instance

instance (b : Board) : Decidable (GravityInv b) := by
  unfold GravityInv; infer_instance

/-! ## Client-side board engine and computer opponent (the App component) -/

namespace App

/-- `getAvailableRow`: probe rows `5, 4, ..., 0` and return the first empty
one in the given column, or -1 when the column is full. -/
def getAvailableRowAux (b : Board) (col : Nat) : Nat → Int
  | 0 => if getN b 0 col = 0 then 0 else -1
  | r + 1 => if getN b (r + 1) col = 0 then ((r : Int) + 1) else getAvailableRowAux b col r

def getAvailableRow (b : Board) (col : Nat) : Int := getAvailableRowAux b col 5

/-- The three extension steps of one direction probe in `checkWinner`:
the window anchored at `(r, c)` reaches length 4 exactly when all three
extensions stay on the 6x7 grid and hold the anchor's mark. -/
def winCells (b : Board) (r c dr dc : Int) : Bool :=
  (List.range 3).all fun k =>
    let rr := r + ((k : Int) + 1) * dr
    let cc := c + ((k : Int) + 1) * dc
    decide (0 ≤ rr ∧ rr < 6 ∧ 0 ≤ cc ∧ cc < 7) && (getCell b rr cc == getCell b r c)

/-- The row-major cell-then-direction scan order of `checkWinner`. -/
def scanList : List ((Int × Int) × Int × Int) :=
  (List.range 6).flatMap fun r =>
    (List.range 7).flatMap fun c =>
      dirsList.map fun d => (((r : Int), (c : Int)), d)

/-- `checkWinner`: full-board scan; returns the mark of the first winning
window found (the UI also records its cells, which the claims do not use). -/
def checkWinner (b : Board) : Option Nat :=
  scanList.findSome? fun rcd =>
    if getCell b rcd.1.1 rcd.1.2 ≠ 0 ∧ winCells b rcd.1.1 rcd.1.2 rcd.2.1 rcd.2.2
    then some (getCell b rcd.1.1 rcd.1.2) else none

def isBoardFull (b : Board) : Bool := b.all fun row => row.all fun cell => cell != 0

def getValidColumns (b : Board) : List Nat :=
  (List.range 7).filter fun col => getAvailableRow b col != -1

/-- The client `applyMove`: place on a copy of the board, or null when the
column is full. -/
def applyMove (b : Board) (col : Nat) (player : Nat) : Option Board :=
  let row := getAvailableRow b col
  if row < 0 then none
  else some (setCell b row.toNat col player)

def findWinningMove (b : Board) (player : Nat) : Option Nat :=
  (getValidColumns b).findSome? fun col =>
    match applyMove b col player with
    | none => none
    | some nextBoard => if checkWinner nextBoard = some player then some col else none

/-- Whether dropping in `col` is legal and ends the game in `player`'s favor. -/
def isWinningCol (b : Board) (player : Nat) (col : Nat) : Bool :=
  match applyMove b col player with
  | none => false
  | some nextBoard => checkWinner nextBoard == some player

/-- `evaluateWindow` of `scorePosition` (the mutable `score +=` steps become
the returned summand). -/
def evaluateWindow (player opp : Nat) (w : List Nat) : Int :=
  let playerCount := (w.filter fun cell => cell == player).length
  let oppCount := (w.filter fun cell => cell == opp).length
  let emptyCount := (w.filter fun cell => cell == 0).length
  (if playerCount = 4 then 100
   else if playerCount = 3 ∧ emptyCount = 1 then 5
   else if playerCount = 2 ∧ emptyCount = 2 then 2
   else 0)
  + (if oppCount = 3 ∧ emptyCount = 1 then -4 else 0)

/-- The cells `(r, c), (r+dr, c+dc), (r+2dr, c+2dc), (r+3dr, c+3dc)`. -/
def win4 (r c dr dc : Int) : List (Int × Int) :=
  [(r, c), (r + dr, c + dc), (r + 2 * dr, c + 2 * dc), (r + 3 * dr, c + 3 * dc)]

/-- Horizontal windows, in the loop order of `scorePosition`. -/
def windowsH : List (List (Int × Int)) :=
  (List.range 6).flatMap fun r => (List.range 4).map fun c => win4 (r : Int) (c : Int) 0 1

/-- Vertical windows: the source iterates columns in the outer loop. -/
def windowsV : List (List (Int × Int)) :=
  (List.range 7).flatMap fun c => (List.range 3).map fun r => win4 (r : Int) (c : Int) 1 0

/-- Down-right diagonal windows. -/
def windowsDR : List (List (Int × Int)) :=
  (List.range 3).flatMap fun r => (List.range 4).map fun c => win4 (r : Int) (c : Int) 1 1

/-- Up-right diagonal windows: rows 3..5, reaching up and to the right. -/
def windowsUR : List (List (Int × Int)) :=
  (List.range 3).flatMap fun i => (List.range 4).map fun c => win4 ((i : Int) + 3) (c : Int) (-1) 1

def windowVals (b : Board) (w : List (Int × Int)) : List Nat := w.map fun p => getCell b p.1 p.2

/-- `scorePosition`: center-column bonus plus the window scores accumulated
by the four loop groups. -/
def scorePosition (b : Board) (player : Nat) : Int :=
  let opp : Nat := if player = 1 then 2 else 1
  let centerCount := ((List.range 6).filter fun r => getN b r 3 == player).length
  (centerCount : Int) * 3
    + ((windowsH ++ windowsV ++ windowsDR ++ windowsUR).map
        fun w => evaluateWindow player opp (windowVals b w)).sum

/-- Scores in the source are JS numbers whose only non-integer values are the
±Infinity search sentinels; model them as integers with both infinities. -/
abbrev EInt := WithBot (WithTop Int)

def toE (x : Int) : EInt := ((x : WithTop Int) : EInt)

def negInf : EInt := ⊥

def posInf : EInt := ((⊤ : WithTop Int) : EInt)

/-- The maximizing loop of `minimax` over the remaining columns, carrying
`alpha`, `beta`, `bestScore` and `bestCol`; `child` runs the recursive call
(returning none when the column is full, which the loop skips). -/
def maximLoop (child : Nat → EInt → EInt → Option (EInt × Option Nat)) :
    List Nat → EInt → EInt → EInt → Option Nat → EInt × Option Nat
  | [], _, _, best, bestCol => (best, bestCol)
  | col :: rest, alpha, beta, best, bestCol =>
    match child col alpha beta with
    | none => maximLoop child rest alpha beta best bestCol
    | some res =>
      let best2 := if res.1 > best then res.1 else best
      let bestCol2 := if res.1 > best then some col else bestCol
      let alpha2 := max alpha best2
      if alpha2 ≥ beta then (best2, bestCol2)
      else maximLoop child rest alpha2 beta best2 bestCol2

/-- The minimizing loop of `minimax`. -/
def minimLoop (child : Nat → EInt → EInt → Option (EInt × Option Nat)) :
    List Nat → EInt → EInt → EInt → Option Nat → EInt × Option Nat
  | [], _, _, best, bestCol => (best, bestCol)
  | col :: rest, alpha, beta, best, bestCol =>
    match child col alpha beta with
    | none => minimLoop child rest alpha beta best bestCol
    | some res =>
      let best2 := if res.1 < best then res.1 else best
      let bestCol2 := if res.1 < best then some col else bestCol
      let beta2 := min beta best2
      if alpha ≥ beta2 then (best2, bestCol2)
      else minimLoop child rest alpha beta2 best2 bestCol2

def minimax (b : Board) (depth : Nat) (alpha beta : EInt) (maximizing : Bool) (player : Nat) :
    EInt × Option Nat :=
  let opp : Nat := if player = 1 then 2 else 1
  let winner := checkWinner b
  let valid := getValidColumns b
  if winner = some player then (toE (100000 + (depth : Int)), none)
  else if winner = some opp then (toE (-100000 - (depth : Int)), none)
  else if h : depth = 0 ∨ valid = [] then (toE (scorePosition b player), none)
  else if maximizing then
    maximLoop
      (fun col a bt => (applyMove b col player).map fun nb =>
        minimax nb (depth - 1) a bt false player)
      valid alpha beta negInf none
  else
    minimLoop
      (fun col a bt => (applyMove b col opp).map fun nb =>
        minimax nb (depth - 1) a bt true player)
      valid alpha beta posInf none
termination_by depth
decreasing_by
  all_goals
    rcases not_or.mp h with ⟨h1, -⟩
    omega

inductive Difficulty
  | easy
  | medium
  | hard
deriving DecidableEq, Repr

/-- `chooseComputerMove`; the ambient `Math.random` column pick is injected
as the `pickRandom` parameter. -/
def chooseComputerMove (pickRandom : List Nat → Nat) (b : Board) (difficulty : Difficulty)
    (computerPlayer : Nat) : Option Nat :=
  let valid := getValidColumns b
  if valid = [] then none
  else if difficulty = .easy then some (pickRandom valid)
  else
    match findWinningMove b computerPlayer with
    | some winningMove => some winningMove
    | none =>
      let oppP : Nat := if computerPlayer = 1 then 2 else 1
      if difficulty = .medium then
        some ((findWinningMove b oppP).getD (pickRandom valid))
      else
        match findWinningMove b oppP with
        | some blockMove => some blockMove
        | none => some ((minimax b 4 negInf posInf true computerPlayer).2.getD (pickRandom valid))

end App

/-! ## Spec-side restatement of the heuristic, for the window-sum claim -/

/-- A window of four cells starting at `(r, c)` and stepping by `(dr, dc)`,
all on the 6x7 grid and all holding the anchor's non-empty mark. -/
def WinWindowAt (b : Board) (r c dr dc : Int) : Prop :=
  getCell b r c ≠ 0 ∧
  ∀ k : Nat, k < 4 →
    (0 ≤ r + k * dr ∧ r + k * dr < 6 ∧ 0 ≤ c + k * dc ∧ c + k * dc < 7) ∧
    getCell b (r + k * dr) (c + k * dc) = getCell b r c

/-- The board holds some winning window along one of the four axes. -/
def HasWinWindow (b : Board) : Prop :=
  ∃ r c dr dc : Int, ((dr, dc) ∈ dirsList) ∧ WinWindowAt b r c dr dc

/-- Membership of the 6x7 grid, for the spec-side window enumeration. -/
def inBounds67 (p : Int × Int) : Bool := decide (0 ≤ p.1 ∧ p.1 < 6 ∧ 0 ≤ p.2 ∧ p.2 < 7)

/-- Follows the spec's words: the windows of 4 consecutive cells along one
axis are those whose 4 cells all lie on the grid. -/
def specWinDir (d : Int × Int) : List (List (Int × Int)) :=
  ((List.range 6).flatMap fun r => (List.range 7).map fun c => (((r : Int), (c : Int)) : Int × Int)).filterMap
    fun p =>
      let cells := (List.range 4).map fun k => (p.1 + (k : Int) * d.1, p.2 + (k : Int) * d.2)
      if cells.all inBounds67 then some cells else none

/-- Follows the spec's words: every window of 4 consecutive cells along each
of the four axes (horizontal, vertical, both diagonals). -/
def specWindows : List (List (Int × Int)) := dirsList.flatMap specWinDir

/-- Follows the spec's words: +100 if all 4 cells are the evaluating
player's, else +5 if exactly 3 are the player's and 1 is empty, else +2 if
exactly 2 are the player's and 2 are empty; plus -4 whenever exactly 3 cells
are the opponent's and 1 is empty. -/
def specWindowScore (player opp : Nat) (w : List Nat) : Int :=
  let pc := (w.filter fun cell => cell == player).length
  let oc := (w.filter fun cell => cell == opp).length
  let ec := (w.filter fun cell => cell == 0).length
  (if pc = 4 then 100
   else if pc = 3 ∧ ec = 1 then 5
   else if pc = 2 ∧ ec = 2 then 2
   else 0)
  + (if oc = 3 ∧ ec = 1 then -4 else 0)

/-- Follows the spec's words: the sum of the window scores over all windows
along each axis, plus 3 per evaluating-player mark in the center column. -/
def scorePositionSpec (b : Board) (player : Nat) : Int :=
  let opp : Nat := if player = 1 then 2 else 1
  (specWindows.map fun w => specWindowScore player opp (App.windowVals b w)).sum
    + 3 * (((List.range 6).filter fun r => getN b r 3 == player).length : Int)

/-! ## Lemmas about the lowest-empty-row scan -/

theorem findRowAux_some (b : Board) (col : Nat) :
    ∀ n r, Server.findRowAux b col n = some r →
      r < n ∧ getN b r col = 0 ∧ ∀ r2, r < r2 → r2 < n → getN b r2 col ≠ 0 := by
  intro n
  induction n with
  | zero => intro r h; simp [Server.findRowAux] at h
  | succ n ih =>
    intro r h
    by_cases hc : getN b n col = 0
    · simp only [Server.findRowAux, if_pos hc, Option.some.injEq] at h
      subst h
      exact ⟨Nat.lt_succ_self _, hc, fun r2 h1 h2 => absurd h1 (by omega)⟩
    · simp only [Server.findRowAux, if_neg hc] at h
      obtain ⟨h1, h2, h3⟩ := ih r h
      refine ⟨by omega, h2, fun r2 hr2 hrn => ?_⟩
      rcases Nat.lt_succ_iff_lt_or_eq.mp hrn with h4 | h4
      · exact h3 r2 hr2 h4
      · exact h4 ▸ hc

theorem findRowAux_none (b : Board) (col : Nat) :
    ∀ n, Server.findRowAux b col n = none ↔ ∀ r, r < n → getN b r col ≠ 0 := by
  intro n
  induction n with
  | zero => simp [Server.findRowAux]
  | succ n ih =>
    by_cases hc : getN b n col = 0
    · simp only [Server.findRowAux, if_pos hc]
      constructor
      · intro h; exact absurd h (by simp)
      · intro h; exact absurd hc (h n (Nat.lt_succ_self _))
    · simp only [Server.findRowAux, if_neg hc, ih]
      constructor
      · intro h r hr
        rcases Nat.lt_succ_iff_lt_or_eq.mp hr with h4 | h4
        · exact h r h4
        · exact h4 ▸ hc
      · intro h r hr; exact h r (by omega)

/-- C1: for every Game in status Playing with byPlayer equal to nextTurn and
a column in [0,7) that has an empty cell, applyMove succeeds and returns the
landed row, the lowest empty row of that column; lastMove becomes
(column, landedRow, byPlayer); on a completed run of 4 the status becomes
Won with winner byPlayer and nextTurn unchanged; otherwise on a full top row
the status becomes Draw; otherwise nextTurn flips to the other player. -/
theorem applyMove_success (s : GameState) (p : PlayerId) (col : Int)
    (hsh : BoardShape s.board) (hst : s.status = .playing) (htn : s.nextTurn = p)
    (hc0 : 0 ≤ col) (hc6 : col < 7)
    (hemp : ∃ r, r < 6 ∧ getN s.board r col.toNat = 0) :
    ∃ row,
      (Server.applyMove s p col).2 = .ok row ∧
      row < 6 ∧ getN s.board row col.toNat = 0 ∧
      (∀ r2, row < r2 → r2 < 6 → getN s.board r2 col.toNat ≠ 0) ∧
      ((Server.applyMove s p col).1.board = setCell s.board row col.toNat (Server.cellValue p) ∧
       (Server.applyMove s p col).1.lastMove = some ⟨col, row, p⟩ ∧
       (Server.checkWin (setCell s.board row col.toNat (Server.cellValue p)) row col = true →
          (Server.applyMove s p col).1.status = .won ∧
          (Server.applyMove s p col).1.winner = some p ∧
          (Server.applyMove s p col).1.nextTurn = s.nextTurn) ∧
       (Server.checkWin (setCell s.board row col.toNat (Server.cellValue p)) row col = false →
        Server.checkDraw (setCell s.board row col.toNat (Server.cellValue p)) = true →
          (Server.applyMove s p col).1.status = .draw) ∧
       (Server.checkWin (setCell s.board row col.toNat (Server.cellValue p)) row col = false →
        Server.checkDraw (setCell s.board row col.toNat (Server.cellValue p)) = false →
          (Server.applyMove s p col).1.nextTurn = Server.otherPlayer p ∧
          (Server.applyMove s p col).1.status = .playing)) := by
  have hrange : ¬(col < 0 ∨ 6 < col) := by omega
  have hne : Server.findRow s.board col.toNat ≠ none := by
    intro hnone
    have hall := (findRowAux_none s.board col.toNat s.board.length).mp hnone
    rw [hsh.1] at hall
    obtain ⟨r, hr, hz⟩ := hemp
    exact hall r hr hz
  obtain ⟨row, hrow⟩ := Option.ne_none_iff_exists'.mp hne
  obtain ⟨h1, h2, h3⟩ := findRowAux_some s.board col.toNat s.board.length row
    (by rw [← hrow]; rfl)
  rw [hsh.1] at h1 h3
  refine ⟨row, ?_, h1, h2, h3, ?_, ?_, ?_, ?_, ?_⟩
  · simp [Server.applyMove, hst, htn, hrange, hrow]
    split_ifs <;> rfl
  · simp [Server.applyMove, hst, htn, hrange, hrow]
    split_ifs <;> rfl
  · simp [Server.applyMove, hst, htn, hrange, hrow]
    split_ifs <;> rfl
  · intro hw
    simp [Server.applyMove, hst, htn, hrange, hrow, hw]
  · intro hw hd
    simp [Server.applyMove, hst, htn, hrange, hrow, hw, hd]
  · intro hw hd
    simp [Server.applyMove, hst, htn, hrange, hrow, hw, hd]

/-- C2: applyMove fails exactly on one of the four conditions, checked in
the order not-playing, out-of-turn, invalid-column, column-full, each with
its specific error, and on failure the Game state is returned unchanged. -/
theorem applyMove_error_cases (s : GameState) (p : PlayerId) (col : Int)
    (hsh : BoardShape s.board) :
    (s.status ≠ .playing →
       Server.applyMove s p col = (s, .error ("Game is not in playing state"))) ∧
    (s.status = .playing → s.nextTurn ≠ p →
       Server.applyMove s p col = (s, .error ("Not your turn"))) ∧
    (s.status = .playing → s.nextTurn = p → (col < 0 ∨ 6 < col) →
       Server.applyMove s p col = (s, .error ("Invalid column"))) ∧
    (s.status = .playing → s.nextTurn = p → 0 ≤ col → col < 7 →
       (∀ r, r < 6 → getN s.board r col.toNat ≠ 0) →
       Server.applyMove s p col = (s, .error ("Column is full"))) ∧
    ((∃ e, (Server.applyMove s p col).2 = .error e) ↔
       (s.status ≠ .playing ∨ s.nextTurn ≠ p ∨ col < 0 ∨ 6 < col ∨
        (∀ r, r < 6 → getN s.board r col.toNat ≠ 0))) := by
  refine ⟨?_, ?_, ?_, ?_, ?_⟩
  · intro h; simp [Server.applyMove, h]
  · intro h1 h2; simp [Server.applyMove, h1, h2]
  · intro h1 h2 h3; simp [Server.applyMove, h1, h2, h3]
  · intro h1 h2 h3 h4 hfull
    have hnone : Server.findRow s.board col.toNat = none := by
      unfold Server.findRow; rw [hsh.1, findRowAux_none]; exact hfull
    have hrange : ¬(col < 0 ∨ 6 < col) := by omega
    simp [Server.applyMove, h1, h2, hrange, hnone]
  · constructor
    · rintro ⟨e, he⟩
      by_cases h1 : s.status = .playing
      · by_cases h2 : s.nextTurn = p
        · by_cases h3 : col < 0 ∨ 6 < col
          · tauto
          · cases hfr : Server.findRow s.board col.toNat with
            | none =>
              refine Or.inr (Or.inr (Or.inr (Or.inr ?_)))
              have := (findRowAux_none s.board col.toNat s.board.length).mp hfr
              rw [hsh.1] at this
              exact this
            | some row =>
              exfalso
              simp only [Server.applyMove, h1, h2, h3, hfr] at he
              by_cases hw : Server.checkWin
                  (setCell s.board row col.toNat (Server.cellValue p)) row col
              · simp [hw] at he
              · by_cases hd : Server.checkDraw
                    (setCell s.board row col.toNat (Server.cellValue p))
                · simp [hw, hd] at he
                · simp [hw, hd] at he
        · tauto
      · tauto
    · intro h
      rcases h with h | h | h | h | h
      · exact ⟨("Game is not in playing state"), by simp [Server.applyMove, h]⟩
      · by_cases h1 : s.status = .playing
        · exact ⟨("Not your turn"), by simp [Server.applyMove, h1, h]⟩
        · exact ⟨("Game is not in playing state"), by simp [Server.applyMove, h1]⟩
      all_goals
        by_cases h1 : s.status = .playing
        case neg => exact ⟨("Game is not in playing state"), by simp [Server.applyMove, h1]⟩
        all_goals by_cases h2 : s.nextTurn = p
        case neg => exact ⟨("Not your turn"), by simp [Server.applyMove, h1, h2]⟩
      · exact ⟨("Invalid column"), by simp [Server.applyMove, h1, h2, Or.inl h]⟩
      · exact ⟨("Invalid column"), by simp [Server.applyMove, h1, h2, Or.inr h]⟩
      · by_cases h3 : col < 0 ∨ 6 < col
        · rcases h3 with h3 | h3
          · exact ⟨("Invalid column"), by simp [Server.applyMove, h1, h2, Or.inl h3]⟩
          · exact ⟨("Invalid column"), by simp [Server.applyMove, h1, h2, Or.inr h3]⟩
        · have hnone : Server.findRow s.board col.toNat = none := by
            unfold Server.findRow; rw [hsh.1, findRowAux_none]; exact h
          exact ⟨("Column is full"), by simp [Server.applyMove, h1, h2, h3, hnone]⟩

/-- C1 witness: placing in column 3 of the fresh game succeeds, landing on
row 5, the lowest (bottom) empty row. -/
theorem applyMove_success_witness :
    ∃ row, (Server.applyMove Server.initialState .P1 3).2 = .ok row ∧
      row < 6 ∧ getN Server.initialState.board row (3 : Int).toNat = 0 := by
  obtain ⟨row, ha, hb, hc, -, -, -, -, -⟩ :=
    applyMove_success Server.initialState .P1 3 (by decide) rfl rfl (by decide) (by decide)
      ⟨5, by decide, by decide⟩
  exact ⟨row, ha, hb, hc⟩

/-- C2 witness: a move by P2 while it is P1's turn fails with the
out-of-turn error and leaves the state unchanged. -/
theorem applyMove_error_witness :
    Server.applyMove Server.initialState .P2 0 =
      (Server.initialState, .error ("Not your turn")) :=
  (applyMove_error_cases Server.initialState .P2 0 (by decide)).2.1 rfl (by decide)

/-- C5: the draw test holds exactly when the top row has no empty cell, and
applyMove only ever reaches the draw test after the win check failed, so a
game is never marked Draw on a winning placement. -/
theorem checkDraw_top_row_and_win_precedence :
    (∀ b : Board, BoardShape b →
       (Server.checkDraw b = true ↔ ∀ c, c < 7 → getN b 0 c ≠ 0)) ∧
    (∀ (s : GameState) (p : PlayerId) (col : Int) (row : Nat),
       (Server.applyMove s p col).2 = .ok row →
       (Server.applyMove s p col).1.status = .draw →
       Server.checkWin (Server.applyMove s p col).1.board row col = false) := by
  constructor
  · intro b hsh
    have h0 : 0 < b.length := by rw [hsh.1]; norm_num
    have hmem : b.getD 0 [] ∈ b := by
      rw [List.getD_eq_getElem b [] h0]
      exact List.getElem_mem h0
    have hlen : (b.getD 0 []).length = 7 := hsh.2 _ hmem
    unfold Server.checkDraw
    rw [List.all_eq_true]
    constructor
    · intro h c hc
      have hclen : c < (b.getD 0 []).length := by omega
      have hmem2 : getN b 0 c ∈ b.getD 0 [] := by
        unfold getN
        rw [List.getD_eq_getElem _ _ hclen]
        exact List.getElem_mem hclen
      have hb := h _ hmem2
      simpa [bne_iff_ne] using hb
    · intro h x hx
      obtain ⟨i, hi, hxe⟩ := List.mem_iff_getElem.mp hx
      have hgn : getN b 0 i = x := by
        unfold getN
        rw [List.getD_eq_getElem _ _ hi]
        exact hxe
      have hne := h i (by omega)
      rw [hgn] at hne
      simpa [bne_iff_ne] using hne
  · intro s p col row hok hdr
    by_cases h1 : s.status = .playing
    case neg => simp [Server.applyMove, h1] at hok
    by_cases h2 : s.nextTurn = p
    case neg => simp [Server.applyMove, h1, h2] at hok
    by_cases h3 : col < 0 ∨ 6 < col
    case pos => simp [Server.applyMove, h1, h2, h3] at hok
    cases hfr : Server.findRow s.board col.toNat with
    | none => simp [Server.applyMove, h1, h2, h3, hfr] at hok
    | some r =>
      by_cases hw : Server.checkWin (setCell s.board r col.toNat (Server.cellValue p)) r col
      · simp [Server.applyMove, h1, h2, h3, hfr, hw] at hdr
      · by_cases hd : Server.checkDraw (setCell s.board r col.toNat (Server.cellValue p))
        · have hrr : row = r := by
            simp [Server.applyMove, h1, h2, h3, hfr, hw, hd] at hok
            omega
          subst hrr
          simp [Server.applyMove, h1, h2, h3, hfr, hw, hd]
        · simp [Server.applyMove, h1, h2, h3, hfr, hw, hd, h1] at hdr

/-- C5 witness: on the empty board the draw-iff statement is settled
concretely, and completing a full board with a non-winning placement at
(0,0) reaches status Draw only with the anchored win check false. -/
theorem checkDraw_witness :
    (Server.checkDraw emptyBoard = true ↔ ∀ c, c < 7 → getN emptyBoard 0 c ≠ 0) ∧
    Server.checkWin
      (Server.applyMove
        ⟨("" ), .playing,
          [[0, 2, 1, 2, 1, 2, 1],
           [1, 2, 1, 2, 1, 2, 1],
           [2, 1, 2, 1, 2, 1, 2],
           [2, 1, 2, 1, 2, 1, 2],
           [1, 2, 1, 2, 1, 2, 1],
           [1, 2, 1, 2, 1, 2, 1]], .P1, none, none, ⟨true, true⟩⟩ .P1 0).1.board 0 0 = false := by
  constructor
  · exact checkDraw_top_row_and_win_precedence.1 emptyBoard (by decide)
  · exact checkDraw_top_row_and_win_precedence.2 _ .P1 0 0 (by rfl) (by rfl)

/-- C10: a sweep tick removes exactly the clientless rooms whose
lastActiveAt is older than the TTL; a room with an attached client is never
removed, regardless of its age. -/
theorem sweepTick_spec (now : Int) (rooms : List (String × Server.Room)) :
    (∀ cr : String × Server.Room,
       (cr ∈ Server.sweepTick now rooms ↔
         cr ∈ rooms ∧ ¬(cr.2.clients = [] ∧ now - cr.2.lastActiveAt > Server.ROOM_TTL_MS))) ∧
    (∀ cr : String × Server.Room, cr ∈ rooms → cr.2.clients ≠ [] →
       cr ∈ Server.sweepTick now rooms) := by
  constructor
  · intro cr
    simp only [Server.sweepTick, List.mem_filter, Bool.or_eq_true, decide_eq_true_eq,
      Bool.not_eq_true', decide_eq_false_iff_not, List.length_pos]
    tauto
  · intro cr hmem hne
    simp only [Server.sweepTick, List.mem_filter, Bool.or_eq_true, decide_eq_true_eq,
      Bool.not_eq_true', decide_eq_false_iff_not, List.length_pos]
    exact ⟨hmem, Or.inl hne⟩

/-- C10 witness: with the TTL just elapsed, a clientless stale room is
swept while an equally old room with one attached client is kept. -/
theorem sweepTick_witness :
    ((("B" : String), (⟨("B"), [⟨("c1"), some ("B"), some .P1⟩], Server.initialState, 0, 0⟩ :
        Server.Room)) ∈
      Server.sweepTick (10 * 60 * 1000 + 1)
        [(("A"), ⟨("A"), [], Server.initialState, 0, 0⟩),
         (("B"), ⟨("B"), [⟨("c1"), some ("B"), some .P1⟩], Server.initialState, 0, 0⟩)]) ∧
    ¬ ((("A" : String), (⟨("A"), [], Server.initialState, 0, 0⟩ : Server.Room)) ∈
      Server.sweepTick (10 * 60 * 1000 + 1)
        [(("A"), ⟨("A"), [], Server.initialState, 0, 0⟩),
         (("B"), ⟨("B"), [⟨("c1"), some ("B"), some .P1⟩], Server.initialState, 0, 0⟩)]) := by
  constructor
  · exact (sweepTick_spec (10 * 60 * 1000 + 1) _).2 _ (by decide) (by decide)
  · intro h
    have := ((sweepTick_spec (10 * 60 * 1000 + 1) _).1 _).mp h
    exact (this.2 (by decide)).elim

/-! ## Join-room handler (C9) -/

theorem pickPlayerId_none_iff (room : Server.Room) :
    Server.pickPlayerId room = none ↔
      ((∃ c ∈ room.clients, c.playerId = some PlayerId.P1) ∧
       (∃ c ∈ room.clients, c.playerId = some PlayerId.P2)) := by
  unfold Server.pickPlayerId
  have h1 : (room.clients.filterMap fun c => c.playerId).contains PlayerId.P1 = true ↔
      ∃ c ∈ room.clients, c.playerId = some PlayerId.P1 := by
    rw [List.elem_iff, List.mem_filterMap]
  have h2 : (room.clients.filterMap fun c => c.playerId).contains PlayerId.P2 = true ↔
      ∃ c ∈ room.clients, c.playerId = some PlayerId.P2 := by
    rw [List.elem_iff, List.mem_filterMap]
  by_cases hc1 : (room.clients.filterMap fun c => c.playerId).contains PlayerId.P1 = true
  · by_cases hc2 : (room.clients.filterMap fun c => c.playerId).contains PlayerId.P2 = true
    · simp only [hc1, hc2, not_true]
      simp only [← h1, ← h2, hc1, hc2]
      simp
    · simp only [hc1, hc2, not_true, not_false_iff]
      simp only [← h1, ← h2, hc1, hc2]
      simp
  · simp only [hc1, not_false_iff]
    simp only [← h1, ← h2, hc1]
    simp

theorem pickPlayerId_some_cases (room : Server.Room) (slot : PlayerId)
    (h : Server.pickPlayerId room = some slot) :
    ((¬ ∃ c ∈ room.clients, c.playerId = some PlayerId.P1) → slot = .P1) ∧
    ((∃ c ∈ room.clients, c.playerId = some PlayerId.P1) → slot = .P2) := by
  have h1 : (room.clients.filterMap fun c => c.playerId).contains PlayerId.P1 = true ↔
      ∃ c ∈ room.clients, c.playerId = some PlayerId.P1 := by
    rw [List.elem_iff, List.mem_filterMap]
  unfold Server.pickPlayerId at h
  constructor
  · intro hno
    have hnc : ¬ ((room.clients.filterMap fun c => c.playerId).contains PlayerId.P1 = true) :=
      fun hc => hno (h1.mp hc)
    rw [if_pos hnc] at h
    exact (Option.some.inj h).symm
  · intro hyes
    rw [← h1] at hyes
    rw [if_neg (not_not_intro hyes)] at h
    split_ifs at h with hc2
    exact (Option.some.inj h).symm

/-- C9 counterexample: a connection that already occupies a room and joins
an unknown code is answered with ROOM_NOT_FOUND, not ALREADY_IN_ROOM: the
handler tests room existence before room membership, contradicting the
claimed check order. -/
theorem joinRoom_order_counterexample :
    (⟨("c1"), some ("AAAA"), some .P1⟩ : Server.Client).roomCode.isSome = true ∧
    (Server.handleJoinRoom [] ⟨("c1"), some ("AAAA"), some .P1⟩ ("BBBB") 0).sends =
      [(("c1"), .errMsg (some ("BBBB")) ("ROOM_NOT_FOUND") ("Room not found"))] := by
  exact ⟨rfl, rfl⟩

/-- C9 as amended: the three rejection tests run in the order room-not-found,
already-in-room, room-full; otherwise the next free identity (P1 if free,
else P2) is assigned, room_joined goes to the sender first, and the updated
full state is then broadcast to every room member. -/
theorem joinRoom_handler_behavior (rooms : List (String × Server.Room))
    (client : Server.Client) (code : String) (now : Int) :
    (Server.lookupRoom rooms code = none →
       Server.handleJoinRoom rooms client code now =
         ⟨rooms, client,
          [(client.id, .errMsg (some code) ("ROOM_NOT_FOUND") ("Room not found"))]⟩) ∧
    (∀ room, Server.lookupRoom rooms code = some room → client.roomCode.isSome →
       Server.handleJoinRoom rooms client code now =
         ⟨rooms, client,
          [(client.id, .errMsg (some code) ("ALREADY_IN_ROOM") ("Already in a room"))]⟩) ∧
    (∀ room, Server.lookupRoom rooms code = some room → client.roomCode = none →
       ((Server.pickPlayerId room = none ↔
          (∃ c ∈ room.clients, c.playerId = some PlayerId.P1) ∧
          (∃ c ∈ room.clients, c.playerId = some PlayerId.P2)) ∧
        (Server.pickPlayerId room = none →
          Server.handleJoinRoom rooms client code now =
            ⟨rooms, client,
             [(client.id, .errMsg (some code) ("ROOM_FULL") ("Room is full"))]⟩))) ∧
    (∀ room slot, Server.lookupRoom rooms code = some room → client.roomCode = none →
       Server.pickPlayerId room = some slot →
       ((¬ ∃ c ∈ room.clients, c.playerId = some PlayerId.P1) → slot = .P1) ∧
       ((∃ c ∈ room.clients, c.playerId = some PlayerId.P1) → slot = .P2) ∧
       (Server.handleJoinRoom rooms client code now).client =
         { client with roomCode := some code, playerId := some slot } ∧
       (Server.handleJoinRoom rooms client code now).sends =
         (client.id, .roomJoined code slot
            (Server.updatePresence { room with
               clients := room.clients ++
                 [{ client with roomCode := some code, playerId := some slot }],
               lastActiveAt := now }).state) ::
         (room.clients ++ [{ client with roomCode := some code, playerId := some slot }]).map
           (fun c : Server.Client => (c.id, .stateMsg code
             (Server.updatePresence { room with
                clients := room.clients ++
                  [{ client with roomCode := some code, playerId := some slot }],
                lastActiveAt := now }).state)) ∧
       (Server.handleJoinRoom rooms client code now).rooms =
         Server.setRoom rooms code
           (Server.updatePresence { room with
              clients := room.clients ++
                [{ client with roomCode := some code, playerId := some slot }],
              lastActiveAt := now })) := by
  refine ⟨?_, ?_, ?_, ?_⟩
  · intro h
    simp [Server.handleJoinRoom, h]
  · intro room h h2
    simp [Server.handleJoinRoom, h, h2]
  · intro room h h2
    refine ⟨pickPlayerId_none_iff room, ?_⟩
    intro hpick
    simp [Server.handleJoinRoom, h, h2, hpick]
  · intro room slot h h2 hpick
    obtain ⟨ha, hb⟩ := pickPlayerId_some_cases room slot hpick
    refine ⟨ha, hb, ?_, ?_, ?_⟩ <;>
      simp [Server.handleJoinRoom, h, h2, hpick, Server.updatePresence]

/-- C9 witness: joining an existing one-seat room as a fresh connection
assigns P2, answers the sender with room_joined and then broadcasts the
state to both members. -/
theorem joinRoom_behavior_witness :
    ∃ sends, (Server.handleJoinRoom
        [(("R1"), ⟨("R1"), [⟨("c0"), some ("R1"), some .P1⟩], Server.initialState, 0, 0⟩)]
        ⟨("c9"), none, none⟩ ("R1") 5).sends = sends ∧
      sends.head?.map (fun m => m.1) = some ("c9") ∧
      (Server.handleJoinRoom
        [(("R1"), ⟨("R1"), [⟨("c0"), some ("R1"), some .P1⟩], Server.initialState, 0, 0⟩)]
        ⟨("c9"), none, none⟩ ("R1") 5).client.playerId = some .P2 := by
  obtain ⟨-, -, hc, hd, -⟩ :=
    (joinRoom_handler_behavior
      [(("R1"), ⟨("R1"), [⟨("c0"), some ("R1"), some .P1⟩], Server.initialState, 0, 0⟩)]
      ⟨("c9"), none, none⟩ ("R1") 5).2.2.2
      ⟨("R1"), [⟨("c0"), some ("R1"), some .P1⟩], Server.initialState, 0, 0⟩ .P2
      (by rfl) rfl (by rfl)
  exact ⟨_, rfl, by rw [hd]; rfl, by rw [hc]⟩

/-! ## The heuristic evaluation as a window sum (C8) -/

theorem specWindowScore_reverse (p o : Nat) (w : List Nat) :
    specWindowScore p o w.reverse = specWindowScore p o w := by
  simp [specWindowScore, List.filter_reverse]

theorem specWindows_sum_eq_code_windows (g : List (Int × Int) → Int)
    (hg : ∀ w, g w.reverse = g w) :
    (specWindows.map g).sum =
      ((App.windowsH ++ App.windowsV ++ App.windowsDR ++ App.windowsUR).map g).sum := by
  have hsplit : specWindows =
      specWinDir (0, 1) ++ (specWinDir (1, 0) ++ (specWinDir (1, 1) ++
        (specWinDir (1, -1) ++ []))) := by decide
  have hH : specWinDir (0, 1) = App.windowsH := by decide
  have hDR : specWinDir (1, 1) = App.windowsDR := by decide
  have hUR : specWinDir (1, -1) = App.windowsUR.map List.reverse := by decide
  have hV : (specWinDir (1, 0)).Perm App.windowsV := by decide
  have hVsum : ((specWinDir (1, 0)).map g).sum = (App.windowsV.map g).sum := (hV.map g).sum_eq
  have hURsum : ((App.windowsUR.map List.reverse).map g).sum = (App.windowsUR.map g).sum := by
    rw [List.map_map]
    congr 1
    apply List.map_congr_left
    intro w _
    exact hg w
  rw [hsplit, hH, hUR]
  simp only [List.map_append, List.sum_append, List.map_nil, List.sum_nil]
  rw [hVsum, hDR, hURsum]
  ring

/-- C8: the heuristic evaluation equals the spec's window sum: over every
4-cell window along each axis, +100 for four own marks, else +5 for three
own and one empty, else +2 for two own and two empty, plus -4 for three
opponent marks and one empty; plus 3 per own mark in the center column,
with no opponent center bonus or mirrored opponent terms. -/
theorem scorePosition_eq_spec (b : Board) (player : Nat) :
    App.scorePosition b player = scorePositionSpec b player := by
  have he : App.evaluateWindow = specWindowScore := rfl
  simp only [App.scorePosition, scorePositionSpec, he]
  rw [specWindows_sum_eq_code_windows]
  · ring
  · intro w
    show specWindowScore _ _ (App.windowVals b w.reverse) = _
    have : App.windowVals b w.reverse = (App.windowVals b w).reverse := by
      simp [App.windowVals]
    rw [this, specWindowScore_reverse]

/-! ## The computer opponent takes an immediate win (C7) -/

theorem findWinningMove_some (b : Board) (p : Nat) (col : Nat)
    (h : App.findWinningMove b p = some col) :
    col ∈ App.getValidColumns b ∧ App.isWinningCol b p col = true := by
  unfold App.findWinningMove at h
  obtain ⟨a, hmem, hfa⟩ := List.exists_of_findSome?_eq_some h
  cases happ : App.applyMove b a p with
  | none => rw [happ] at hfa; exact absurd hfa (by simp)
  | some nb =>
    rw [happ] at hfa
    dsimp only at hfa
    by_cases hwin : App.checkWinner nb = some p
    · rw [if_pos hwin] at hfa
      have hac : a = col := Option.some.inj hfa
      subst hac
      refine ⟨hmem, ?_⟩
      unfold App.isWinningCol
      rw [happ]
      dsimp only
      rw [hwin]
      simp
    · rw [if_neg hwin] at hfa
      exact absurd hfa (by simp)

theorem findWinningMove_none (b : Board) (p : Nat)
    (h : App.findWinningMove b p = none) :
    ∀ col ∈ App.getValidColumns b, App.isWinningCol b p col = false := by
  intro col hmem
  unfold App.findWinningMove at h
  rw [List.findSome?_eq_none_iff] at h
  have hf := h col hmem
  unfold App.isWinningCol
  cases happ : App.applyMove b col p with
  | none => rfl
  | some nb =>
    rw [happ] at hf
    dsimp only at hf
    by_cases hwin : App.checkWinner nb = some p
    · rw [if_pos hwin] at hf; exact absurd hf (by simp)
    · simp [hwin]

/-- C7: whenever some legal column is an immediate win for the computer,
chooseComputerMove at Medium and at Hard difficulty returns a column whose
move immediately wins for the computer. -/
theorem chooseComputerMove_immediate_win (pickR : List Nat → Nat) (b : Board)
    (cp : Nat) (difficulty : App.Difficulty)
    (hd : difficulty = .medium ∨ difficulty = .hard)
    (hex : ∃ col, col ∈ App.getValidColumns b ∧ App.isWinningCol b cp col = true) :
    ∃ col, App.chooseComputerMove pickR b difficulty cp = some col ∧
      App.isWinningCol b cp col = true := by
  obtain ⟨c0, hc0v, hc0w⟩ := hex
  have hfw : ∃ w, App.findWinningMove b cp = some w := by
    cases hfwm : App.findWinningMove b cp with
    | some w => exact ⟨w, rfl⟩
    | none => exact absurd hc0w (by rw [findWinningMove_none b cp hfwm c0 hc0v]; simp)
  obtain ⟨w, hw⟩ := hfw
  obtain ⟨hwv, hww⟩ := findWinningMove_some b cp w hw
  refine ⟨w, ?_, hww⟩
  have hvne : ¬ App.getValidColumns b = [] := by
    intro hnil; rw [hnil] at hc0v; exact absurd hc0v (List.not_mem_nil c0)
  rcases hd with hd | hd <;> subst hd <;> simp [App.chooseComputerMove, hvne, hw]

/-- C7 witness: with three marks on the bottom row, Hard picks a column that
completes four in a row. -/
theorem chooseComputerMove_win_witness :
    ∃ col, App.chooseComputerMove (fun _ => 0)
        (setCell (setCell (setCell emptyBoard 5 0 1) 5 1 1) 5 2 1) .hard 1 = some col ∧
      App.isWinningCol (setCell (setCell (setCell emptyBoard 5 0 1) 5 1 1) 5 2 1) 1 col = true :=
  chooseComputerMove_immediate_win (fun _ => 0)
    (setCell (setCell (setCell emptyBoard 5 0 1) 5 1 1) 5 2 1) 1 .hard (Or.inr rfl)
    ⟨3, by decide, by decide⟩

/-! ## Minimax terminal scores, move order, tie-breaking and pruning (C6) -/

/-- C6: minimax scores a position already won by the searching player as
100000 plus the remaining depth and one won by the opponent as the negated
mirror; at depth 0 or with no legal columns it returns the heuristic; the
candidate columns are scanned in natural ascending order 0..6; a child that
does not strictly beat the best score never replaces the recorded column
(ties keep the first); and once alpha meets beta the remaining children are
not scanned. -/
theorem minimax_terminal_order_pruning :
    (∀ (b : Board) (depth : Nat) (alpha beta : App.EInt) (maximizing : Bool) (player : Nat),
       App.checkWinner b = some player →
       App.minimax b depth alpha beta maximizing player =
         (App.toE (100000 + (depth : Int)), none)) ∧
    (∀ (b : Board) (depth : Nat) (alpha beta : App.EInt) (maximizing : Bool) (player : Nat),
       App.checkWinner b = some (if player = 1 then 2 else 1) →
       App.minimax b depth alpha beta maximizing player =
         (App.toE (-100000 - (depth : Int)), none)) ∧
    (∀ (b : Board) (depth : Nat) (alpha beta : App.EInt) (maximizing : Bool) (player : Nat),
       App.checkWinner b = none → (depth = 0 ∨ App.getValidColumns b = []) →
       App.minimax b depth alpha beta maximizing player =
         (App.toE (App.scorePosition b player), none)) ∧
    (∀ b : Board, (App.getValidColumns b).Pairwise (· < ·) ∧
       ∀ c ∈ App.getValidColumns b, c < 7) ∧
    (∀ (child : Nat → App.EInt → App.EInt → Option (App.EInt × Option Nat))
       (col : Nat) (rest : List Nat) (alpha beta best : App.EInt) (bestCol : Option Nat)
       (res : App.EInt × Option Nat),
       child col alpha beta = some res → ¬(res.1 > best) →
       App.maximLoop child (col :: rest) alpha beta best bestCol =
         (if max alpha best ≥ beta then (best, bestCol)
          else App.maximLoop child rest (max alpha best) beta best bestCol)) ∧
    (∀ (child : Nat → App.EInt → App.EInt → Option (App.EInt × Option Nat))
       (col : Nat) (rest : List Nat) (alpha beta best : App.EInt) (bestCol : Option Nat)
       (res : App.EInt × Option Nat),
       child col alpha beta = some res → ¬(res.1 < best) →
       App.minimLoop child (col :: rest) alpha beta best bestCol =
         (if alpha ≥ min beta best then (best, bestCol)
          else App.minimLoop child rest alpha (min beta best) best bestCol)) ∧
    (∀ (child : Nat → App.EInt → App.EInt → Option (App.EInt × Option Nat))
       (col : Nat) (rest : List Nat) (alpha beta best : App.EInt) (bestCol : Option Nat)
       (res : App.EInt × Option Nat),
       child col alpha beta = some res →
       max alpha (if res.1 > best then res.1 else best) ≥ beta →
       App.maximLoop child (col :: rest) alpha beta best bestCol =
         App.maximLoop child [col] alpha beta best bestCol) ∧
    (∀ (child : Nat → App.EInt → App.EInt → Option (App.EInt × Option Nat))
       (col : Nat) (rest : List Nat) (alpha beta best : App.EInt) (bestCol : Option Nat)
       (res : App.EInt × Option Nat),
       child col alpha beta = some res →
       alpha ≥ min beta (if res.1 < best then res.1 else best) →
       App.minimLoop child (col :: rest) alpha beta best bestCol =
         App.minimLoop child [col] alpha beta best bestCol) := by
  have hopp : ∀ player : Nat, (if player = 1 then 2 else 1) ≠ player := by
    intro player
    by_cases h : player = 1
    · simp [h]
    · simp [h]
      omega
  refine ⟨?_, ?_, ?_, ?_, ?_, ?_, ?_, ?_⟩
  · intro b depth alpha beta maximizing player h
    rw [App.minimax]
    simp [h]
  · intro b depth alpha beta maximizing player h
    rw [App.minimax]
    have hne : App.checkWinner b ≠ some player := by
      rw [h]
      intro hc
      exact hopp player (Option.some.inj hc)
    simp [h, hne, hopp player]
  · intro b depth alpha beta maximizing player h hterm
    rw [App.minimax]
    simp [h, hterm]
  · intro b
    constructor
    · exact (List.pairwise_lt_range 7).filter _
    · intro c hc
      unfold App.getValidColumns at hc
      exact List.mem_range.mp (List.mem_of_mem_filter hc)
  · intro child col rest alpha beta best bestCol res hchild hle
    rw [App.maximLoop, hchild]
    simp only [if_neg hle]
  · intro child col rest alpha beta best bestCol res hchild hle
    rw [App.minimLoop, hchild]
    simp only [if_neg hle]
  · intro child col rest alpha beta best bestCol res hchild hcut
    rw [App.maximLoop, hchild, App.maximLoop, hchild]
    simp only [if_pos hcut]
  · intro child col rest alpha beta best bestCol res hchild hcut
    rw [App.minimLoop, hchild, App.minimLoop, hchild]
    simp only [if_pos hcut]

/-- C6 witness: on a board already won by player 1 the search returns
100000 plus the remaining depth with no column. -/
theorem minimax_terminal_witness :
    App.minimax (setCell (setCell (setCell (setCell emptyBoard 5 0 1) 5 1 1) 5 2 1) 5 3 1)
        2 App.negInf App.posInf true 1 = (App.toE 100002, none) :=
  minimax_terminal_order_pruning.1
    (setCell (setCell (setCell (setCell emptyBoard 5 0 1) 5 1 1) 5 2 1) 5 3 1)
    2 App.negInf App.posInf true 1 (by decide)

/-! ## Cell get/set lemmas and counting (towards C4) -/

theorem getN_setCell_ne (b : Board) (r c v r2 c2 : Nat) (h : r2 ≠ r ∨ c2 ≠ c) :
    getN (setCell b r c v) r2 c2 = getN b r2 c2 := by
  unfold getN setCell
  simp only [List.getD_eq_getElem?_getD]
  by_cases hr : r2 = r
  · subst hr
    have hcne : c2 ≠ c := by tauto
    by_cases hlen : r2 < b.length
    · rw [List.getElem?_set_self', List.getElem?_eq_getElem hlen]
      simp only [Option.map_some, Option.getD_some, Function.const_apply]
      rw [List.getElem?_set_ne (fun he => hcne he.symm)]
    · rw [List.set_eq_of_length_le (by omega)]
  · rw [List.getElem?_set_ne (fun he => hr he.symm)]

theorem getN_setCell_eq (b : Board) (r c v : Nat) (hr : r < b.length)
    (hc : c < (b.getD r []).length) :
    getN (setCell b r c v) r c = v := by
  unfold getN setCell
  simp only [List.getD_eq_getElem?_getD]
  rw [List.getElem?_set_self', List.getElem?_eq_getElem hr]
  simp only [Option.map_some, Option.getD_some, Function.const_apply]
  rw [List.getElem?_set_self']
  have hc3 : c < (b[r]).length := by
    rw [← List.getD_eq_getElem b [] hr]
    exact hc
  rw [List.getElem?_eq_getElem hc3]
  rfl

theorem row_length_seven (b : Board) (hsh : BoardShape b) (r : Nat) (hr : r < 6) :
    (b.getD r []).length = 7 := by
  apply hsh.2
  rw [List.getD_eq_getElem b [] (by rw [hsh.1]; exact hr)]
  exact List.getElem_mem _

theorem boardShape_setCell (b : Board) (r c v : Nat) (hsh : BoardShape b) (hr : r < 6) :
    BoardShape (setCell b r c v) := by
  obtain ⟨hlen, hrows⟩ := hsh
  constructor
  · unfold setCell
    rw [List.length_set]
    exact hlen
  · intro row hrow
    rcases List.mem_or_eq_of_mem_set hrow with h | h
    · exact hrows row h
    · subst h
      rw [List.length_set]
      apply hrows
      rw [List.getD_eq_getElem b [] (by rw [hlen]; exact hr)]
      exact List.getElem_mem _

theorem filter_length_succ_of_flip {l : List Nat} {p q : Nat → Bool} {x : Nat}
    (hx : x ∈ l) (hnd : l.Nodup) (hpx : p x = false) (hqx : q x = true)
    (hsame : ∀ y ∈ l, y ≠ x → p y = q y) :
    (l.filter q).length = (l.filter p).length + 1 := by
  induction l with
  | nil => cases hx
  | cons a t ih =>
    rcases List.mem_cons.mp hx with heq | hxt
    · subst heq
      have hpt : t.filter p = t.filter q := by
        apply List.filter_congr
        intro y hy
        have hyx : y ≠ x := by
          intro he; subst he; exact (List.nodup_cons.mp hnd).1 hy
        exact hsame y (List.mem_cons_of_mem _ hy) hyx
      simp [List.filter_cons, hpx, hqx, hpt]
    · have hax : a ≠ x := by
        intro he; subst he; exact (List.nodup_cons.mp hnd).1 hxt
      have hpa := hsame a (List.mem_cons_self _ _) hax
      have ht := ih hxt (List.nodup_cons.mp hnd).2
        (fun y hy hyx => hsame y (List.mem_cons_of_mem _ hy) hyx)
      by_cases hpav : p a = true
      · have hqav : q a = true := hpa ▸ hpav
        simp [List.filter_cons, hpav, hqav, ht]
      · have hqav : q a = false := by
          rw [← hpa]
          exact Bool.not_eq_true _ ▸ (by simpa using hpav)
        simp [List.filter_cons, hpav, hqav, ht]

theorem sum_map_succ_at {l : List Nat} {f g : Nat → Nat} {x : Nat}
    (hx : x ∈ l) (hnd : l.Nodup) (hsame : ∀ y ∈ l, y ≠ x → f y = g y)
    (hstep : g x = f x + 1) :
    (l.map g).sum = (l.map f).sum + 1 := by
  induction l with
  | nil => cases hx
  | cons a t ih =>
    rcases List.mem_cons.mp hx with heq | hxt
    · subst heq
      have hmap : t.map f = t.map g := by
        apply List.map_congr_left
        intro y hy
        have hyx : y ≠ x := by
          intro he; subst he; exact (List.nodup_cons.mp hnd).1 hy
        exact hsame y (List.mem_cons_of_mem _ hy) hyx
      simp only [List.map_cons, List.sum_cons, hstep, hmap]
      omega
    · have hax : a ≠ x := by
        intro he; subst he; exact (List.nodup_cons.mp hnd).1 hxt
      have hfa := hsame a (List.mem_cons_self _ _) hax
      have ht := ih hxt (List.nodup_cons.mp hnd).2
        (fun y hy hyx => hsame y (List.mem_cons_of_mem _ hy) hyx)
      simp only [List.map_cons, List.sum_cons, hfa, ht]
      omega

theorem countNonEmpty_setCell (b : Board) (r c v : Nat) (hsh : BoardShape b)
    (hr : r < 6) (hc : c < 7) (hz : getN b r c = 0) (hv : v ≠ 0) :
    countNonEmpty (setCell b r c v) = countNonEmpty b + 1 := by
  unfold countNonEmpty
  apply sum_map_succ_at (x := r)
  · exact List.mem_range.mpr hr
  · exact List.nodup_range 6
  · intro y _ hyx
    congr 1
    apply List.filter_congr
    intro c2 _
    rw [getN_setCell_ne b r c v y c2 (Or.inl hyx)]
  · apply filter_length_succ_of_flip (x := c)
    · exact List.mem_range.mpr hc
    · exact List.nodup_range 7
    · simp [hz]
    · rw [getN_setCell_eq b r c v (by rw [hsh.1]; exact hr)
        (by rw [row_length_seven b hsh r hr]; exact hc)]
      simpa using hv
    · intro y _ hyx
      rw [getN_setCell_ne b r c v r y (Or.inr hyx)]

theorem columnMono_full_iff (b : Board) (c : Nat) (hm : ColumnMono b c) :
    ColumnFullP b c ↔ getN b 0 c ≠ 0 :=
  ⟨fun hf => hf 0 (by norm_num), fun ht r hr => hm r hr 0 (Nat.zero_le _) ht⟩

theorem gravity_setCell (b : Board) (row c v : Nat) (hsh : BoardShape b)
    (hg : GravityInv b) (hrow : row < 6) (hc : c < 7) (hv : v ≠ 0)
    (hbelow : ∀ r2, row < r2 → r2 < 6 → getN b r2 c ≠ 0) :
    GravityInv (setCell b row c v) := by
  intro c2 hc2
  have hmono : ColumnMono (setCell b row c v) c2 := by
    intro r2 hr2 r1 hle hne
    by_cases hcc : c2 = c
    · subst hcc
      by_cases h2r : r2 = row
      · subst h2r
        rw [getN_setCell_eq b r2 c2 v (by rw [hsh.1]; exact hrow)
          (by rw [row_length_seven b hsh r2 hrow]; exact hc)]
        exact hv
      · rw [getN_setCell_ne b row c2 v r2 c2 (Or.inl h2r)]
        by_cases h1r : r1 = row
        · exact hbelow r2 (by omega) hr2
        · rw [getN_setCell_ne b row c2 v r1 c2 (Or.inl h1r)] at hne
          exact (hg c2 hc2).2 r2 hr2 r1 hle hne
    · rw [getN_setCell_ne b row c v r2 c2 (Or.inr hcc)]
      rw [getN_setCell_ne b row c v r1 c2 (Or.inr hcc)] at hne
      exact (hg c2 hc2).2 r2 hr2 r1 hle hne
  exact ⟨columnMono_full_iff _ _ hmono, hmono⟩

theorem applyMove_ok_inv (s : GameState) (p : PlayerId) (col : Int) (s2 : GameState) (row : Nat)
    (h : Server.applyMove s p col = (s2, .ok row)) :
    s2.board = setCell s.board row col.toNat (Server.cellValue p) ∧
    Server.findRow s.board col.toNat = some row ∧ col.toNat < 7 := by
  by_cases h1 : s.status = .playing
  case neg => simp [Server.applyMove, h1] at h
  by_cases h2 : s.nextTurn = p
  case neg => simp [Server.applyMove, h1, h2] at h
  by_cases h3 : col < 0 ∨ 6 < col
  case pos => simp [Server.applyMove, h1, h2, h3] at h
  have hcol7 : col.toNat < 7 := by omega
  cases hfr : Server.findRow s.board col.toNat with
  | none => simp [Server.applyMove, h1, h2, h3, hfr] at h
  | some r =>
    by_cases hw : Server.checkWin (setCell s.board r col.toNat (Server.cellValue p)) r col
    · simp [Server.applyMove, h1, h2, h3, hfr, hw] at h
      obtain ⟨hs2, hrr⟩ := h
      subst hrr
      rw [← hs2]
      exact ⟨rfl, rfl, hcol7⟩
    · by_cases hd : Server.checkDraw (setCell s.board r col.toNat (Server.cellValue p))
      · simp [Server.applyMove, h1, h2, h3, hfr, hw, hd] at h
        obtain ⟨hs2, hrr⟩ := h
        subst hrr
        rw [← hs2]
        exact ⟨rfl, rfl, hcol7⟩
      · simp [Server.applyMove, h1, h2, h3, hfr, hw, hd] at h
        obtain ⟨hs2, hrr⟩ := h
        subst hrr
        rw [← hs2]
        exact ⟨rfl, rfl, hcol7⟩

/-- C4: every board reachable from the fresh 6x7 game by successful
applyMove calls satisfies the gravity invariant (a column is full iff its
top row is occupied, and no cell below an occupied cell of its column is
empty), its number of non-empty cells equals the number of moves applied,
and no column holds more than 6 marks. -/
theorem reachable_board_invariants (s : GameState) (n : Nat)
    (h : Server.Reachable s n) :
    GravityInv s.board ∧ countNonEmpty s.board = n ∧ ∀ c, colCount s.board c ≤ 6 := by
  have hcv : ∀ q : PlayerId, Server.cellValue q ≠ 0 := by
    intro q; cases q <;> simp [Server.cellValue]
  have colbound : ∀ (b : Board) (c : Nat), colCount b c ≤ 6 := by
    intro b c
    unfold colCount
    calc ((List.range 6).filter _).length ≤ (List.range 6).length :=
          List.length_filter_le _ _
    _ = 6 := List.length_range 6
  have key : BoardShape s.board ∧ GravityInv s.board ∧ countNonEmpty s.board = n := by
    induction h with
    | init => exact ⟨by decide, by decide, by decide⟩
    | step hre happ ih =>
      obtain ⟨hsh, hg, hcount⟩ := ih
      obtain ⟨hboard, hfr, hcol⟩ := applyMove_ok_inv _ _ _ _ _ happ
      have hfr2 : Server.findRowAux _ _ _ = some _ := hfr
      obtain ⟨hlt, hz, hbelow⟩ := findRowAux_some _ _ _ _ hfr2
      rw [hsh.1] at hlt hbelow
      refine ⟨?_, ?_, ?_⟩
      · rw [hboard]
        exact boardShape_setCell _ _ _ _ hsh hlt
      · rw [hboard]
        exact gravity_setCell _ _ _ _ hsh hg hlt hcol (hcv _) hbelow
      · rw [hboard, countNonEmpty_setCell _ _ _ _ hsh hlt hcol hz (hcv _), hcount]
  exact ⟨key.2.1, key.2.2, fun c => colbound _ c⟩

/-- C4 witness: after one successful move from the fresh game the
invariants hold with exactly one occupied cell. -/
theorem reachable_invariants_witness :
    GravityInv (Server.applyMove Server.initialState .P1 3).1.board ∧
    countNonEmpty (Server.applyMove Server.initialState .P1 3).1.board = 1 ∧
    ∀ c, colCount (Server.applyMove Server.initialState .P1 3).1.board c ≤ 6 :=
  reachable_board_invariants _ 1
    (Server.Reachable.step Server.Reachable.init
      (show Server.applyMove Server.initialState .P1 3 =
        ((Server.applyMove Server.initialState .P1 3).1, .ok 5) from by rfl))

/-! ## The countDir while loop: specification lemmas (towards C3) -/

theorem countDirAux_le_fuel (b : Board) (dr dc : Int) (val : Nat) :
    ∀ (fuel : Nat) (r c : Int), Server.countDirAux b dr dc val r c fuel ≤ fuel := by
  intro fuel
  induction fuel with
  | zero => intro r c; rw [Server.countDirAux]
  | succ n ih =>
    intro r c
    rw [Server.countDirAux]
    by_cases h : Server.DirCond b val r c
    · rw [if_pos h]
      have := ih (r + dr) (c + dc)
      omega
    · rw [if_neg h]
      omega

theorem countDirAux_cond (b : Board) (dr dc : Int) (val : Nat) :
    ∀ (fuel : Nat) (r c : Int) (k : Nat),
      k < Server.countDirAux b dr dc val r c fuel →
      Server.DirCond b val (r + k * dr) (c + k * dc) := by
  intro fuel
  induction fuel with
  | zero => intro r c k h; rw [Server.countDirAux] at h; omega
  | succ n ih =>
    intro r c k h
    rw [Server.countDirAux] at h
    by_cases hcond : Server.DirCond b val r c
    · rw [if_pos hcond] at h
      cases k with
      | zero => simpa using hcond
      | succ j =>
        have hj : j < Server.countDirAux b dr dc val (r + dr) (c + dc) n := by omega
        have hih := ih (r + dr) (c + dc) j hj
        have e1 : r + ((j + 1 : Nat) : Int) * dr = r + dr + (j : Int) * dr := by
          push_cast; ring
        have e2 : c + ((j + 1 : Nat) : Int) * dc = c + dc + (j : Int) * dc := by
          push_cast; ring
        rw [e1, e2]
        exact hih
    · rw [if_neg hcond] at h
      omega

theorem countDirAux_stop (b : Board) (dr dc : Int) (val : Nat) :
    ∀ (fuel : Nat) (r c : Int),
      Server.countDirAux b dr dc val r c fuel < fuel →
      ¬ Server.DirCond b val (r + (Server.countDirAux b dr dc val r c fuel : Int) * dr)
        (c + (Server.countDirAux b dr dc val r c fuel : Int) * dc) := by
  intro fuel
  induction fuel with
  | zero => intro r c h; omega
  | succ n ih =>
    intro r c h
    by_cases hcond : Server.DirCond b val r c
    · rw [Server.countDirAux, if_pos hcond] at h ⊢
      have hlt : Server.countDirAux b dr dc val (r + dr) (c + dc) n < n := by omega
      have hih := ih (r + dr) (c + dc) hlt
      have e1 : r + ((Server.countDirAux b dr dc val (r + dr) (c + dc) n + 1 : Nat) : Int) * dr =
          r + dr + (Server.countDirAux b dr dc val (r + dr) (c + dc) n : Int) * dr := by
        push_cast; ring
      have e2 : c + ((Server.countDirAux b dr dc val (r + dr) (c + dc) n + 1 : Nat) : Int) * dc =
          c + dc + (Server.countDirAux b dr dc val (r + dr) (c + dc) n : Int) * dc := by
        push_cast; ring
      rw [e1, e2]
      exact hih
    · rw [Server.countDirAux, if_neg hcond] at h ⊢
      simpa using hcond

theorem countDirAux_ge (b : Board) (dr dc : Int) (val : Nat) (m fuel : Nat) (r c : Int)
    (hcond : ∀ k : Nat, k < m → Server.DirCond b val (r + k * dr) (c + k * dc)) (hm : m ≤ fuel) :
    m ≤ Server.countDirAux b dr dc val r c fuel := by
  by_contra hlt
  push_neg at hlt
  exact countDirAux_stop b dr dc val fuel r c (by omega) (hcond _ hlt)

theorem countDir_lt_fuel (b : Board) (hsh : BoardShape b) (row col dr dc : Int) (val : Nat)
    (hd : dr = 1 ∨ dr = -1 ∨ dc = 1 ∨ dc = -1) :
    Server.countDir b row col dr dc val < b.length + (b.getD 0 []).length + 2 := by
  have hL : b.length = 6 := hsh.1
  have hC : (b.getD 0 []).length = 7 := row_length_seven b hsh 0 (by norm_num)
  unfold Server.countDir
  rcases Nat.lt_or_ge (Server.countDirAux b dr dc val (row + dr) (col + dc)
      (b.length + (b.getD 0 []).length + 2)) (b.length + (b.getD 0 []).length + 2) with h | h
  · exact h
  · exfalso
    have heq : Server.countDirAux b dr dc val (row + dr) (col + dc)
        (b.length + (b.getD 0 []).length + 2) = b.length + (b.getD 0 []).length + 2 :=
      le_antisymm (countDirAux_le_fuel b dr dc val _ _ _) h
    have hall : ∀ k : Nat, k < b.length + (b.getD 0 []).length + 2 →
        Server.DirCond b val (row + dr + k * dr) (col + dc + k * dc) := by
      intro k hk
      exact countDirAux_cond b dr dc val (b.length + (b.getD 0 []).length + 2)
        (row + dr) (col + dc) k (by omega)
    have h0 := hall 0 (by omega)
    have h14 := hall 14 (by omega)
    obtain ⟨a1, a2, a3, a4, -⟩ := h0
    obtain ⟨b1, b2, b3, b4, -⟩ := h14
    rw [hL] at a2 b2
    rw [hC] at a4 b4
    push_cast at a1 a2 a3 a4 b1 b2 b3 b4
    rcases hd with rfl | rfl | rfl | rfl <;> omega

theorem getCell_coe (b : Board) (r c : Nat) : getCell b (r : Int) (c : Int) = getN b r c := by
  unfold getCell
  rw [if_pos ⟨Int.natCast_nonneg r, Int.natCast_nonneg c⟩]
  simp

theorem getCell_setCell_out (b : Board) (r c v : Nat) (x y : Int)
    (h : x ≠ (r : Int) ∨ y ≠ (c : Int)) :
    getCell (setCell b r c v) x y = getCell b x y := by
  unfold getCell
  by_cases hx : 0 ≤ x ∧ 0 ≤ y
  · rw [if_pos hx, if_pos hx]
    apply getN_setCell_ne
    rcases h with h | h
    · left; intro he; apply h; omega
    · right; intro he; apply h; omega
  · rw [if_neg hx, if_neg hx]

theorem mem_scanList (x : (Int × Int) × Int × Int) :
    x ∈ App.scanList ↔
      ∃ rn : Nat, rn < 6 ∧ ∃ cn : Nat, cn < 7 ∧ ∃ d ∈ dirsList,
        x = (((rn : Int), (cn : Int)), d) := by
  unfold App.scanList
  constructor
  · intro h
    obtain ⟨rn, hrn, h2⟩ := List.mem_flatMap.mp h
    obtain ⟨cn, hcn, h3⟩ := List.mem_flatMap.mp h2
    obtain ⟨d, hd, h4⟩ := List.mem_map.mp h3
    exact ⟨rn, List.mem_range.mp hrn, cn, List.mem_range.mp hcn, d, hd, h4.symm⟩
  · rintro ⟨rn, hrn, cn, hcn, d, hd, rfl⟩
    apply List.mem_flatMap.mpr
    refine ⟨rn, List.mem_range.mpr hrn, ?_⟩
    apply List.mem_flatMap.mpr
    refine ⟨cn, List.mem_range.mpr hcn, ?_⟩
    exact List.mem_map.mpr ⟨d, hd, rfl⟩

theorem checkWinner_isSome_iff (b : Board) :
    (App.checkWinner b).isSome = true ↔ HasWinWindow b := by
  constructor
  · intro h
    obtain ⟨w, hw⟩ := Option.isSome_iff_exists.mp h
    obtain ⟨x, hxmem, hfx⟩ := List.exists_of_findSome?_eq_some hw
    obtain ⟨rn, hrn, cn, hcn, d, hd, rfl⟩ := (mem_scanList x).mp hxmem
    by_cases hcond : getCell b (rn : Int) (cn : Int) ≠ 0 ∧
        App.winCells b (rn : Int) (cn : Int) d.1 d.2 = true
    · refine ⟨(rn : Int), (cn : Int), d.1, d.2, by simpa using hd, hcond.1, ?_⟩
      intro k hk
      have hwc := hcond.2
      unfold App.winCells at hwc
      rw [List.all_eq_true] at hwc
      match k, hk with
      | 0, _ =>
        simp only [Nat.cast_zero, zero_mul, add_zero]
        exact ⟨⟨Int.natCast_nonneg rn, by exact_mod_cast hrn, Int.natCast_nonneg cn,
          by exact_mod_cast hcn⟩, trivial⟩
      | (j + 1), hk =>
        have hj3 : j < 3 := by omega
        have hstep := hwc j (List.mem_range.mpr hj3)
        dsimp only at hstep
        simp only [Bool.and_eq_true, decide_eq_true_eq, beq_iff_eq] at hstep
        obtain ⟨⟨e1, e2, e3, e4⟩, e5⟩ := hstep
        have harr : (rn : Int) + ((j + 1 : Nat) : Int) * d.1 =
            (rn : Int) + ((j : Int) + 1) * d.1 := by push_cast; ring
        have harc : (cn : Int) + ((j + 1 : Nat) : Int) * d.2 =
            (cn : Int) + ((j : Int) + 1) * d.2 := by push_cast; ring
        rw [harr, harc]
        exact ⟨⟨e1, e2, e3, e4⟩, e5⟩
    · rw [if_neg hcond] at hfx
      exact absurd hfx (by simp)
  · rintro ⟨ar, ac, dr, dc, hd, hanchor, hcells⟩
    by_contra hnone
    rw [Bool.not_eq_true, Option.not_isSome, Option.isNone_iff_eq_none] at hnone
    unfold App.checkWinner at hnone
    rw [List.findSome?_eq_none_iff] at hnone
    obtain ⟨⟨b1, b2, b3, b4⟩, -⟩ := hcells 0 (by omega)
    simp only [Nat.cast_zero, zero_mul, add_zero] at b1 b2 b3 b4
    have hwc : App.winCells b ar ac dr dc = true := by
      unfold App.winCells
      rw [List.all_eq_true]
      intro j hj
      have hj3 : j < 3 := List.mem_range.mp hj
      obtain ⟨⟨e1, e2, e3, e4⟩, e5⟩ := hcells (j + 1) (by omega)
      have harr : ar + ((j + 1 : Nat) : Int) * dr = ar + ((j : Int) + 1) * dr := by
        push_cast; ring
      have harc : ac + ((j + 1 : Nat) : Int) * dc = ac + ((j : Int) + 1) * dc := by
        push_cast; ring
      rw [harr] at e1 e2 e5
      rw [harc] at e3 e4 e5
      dsimp only
      simp only [Bool.and_eq_true, decide_eq_true_eq, beq_iff_eq]
      exact ⟨⟨e1, e2, e3, e4⟩, e5⟩
    have hmem : ((ar, ac), (dr, dc)) ∈ App.scanList := by
      apply (mem_scanList _).mpr
      refine ⟨ar.toNat, by omega, ac.toNat, by omega, (dr, dc), hd, ?_⟩
      rw [Int.toNat_of_nonneg b1, Int.toNat_of_nonneg b3]
    have hx := hnone ((ar, ac), (dr, dc)) hmem
    dsimp only at hx
    rw [if_pos ⟨hanchor, hwc⟩] at hx
    exact absurd hx (by simp)

/-- C3: on a 6x7 board whose state before the single new mark at (row, col)
had no winning window, the anchored check checkWin(board, row, col) returns
true exactly when the full-board scan checkWinner(board) finds a winner. -/
theorem checkWin_iff_checkWinner (b : Board) (r c : Nat) (hsh : BoardShape b)
    (hr : r < 6) (hc : c < 7) (hnz : getN b r c ≠ 0)
    (hpre : App.checkWinner (setCell b r c 0) = none) :
    (Server.checkWin b (r : Int) (c : Int) = true ↔ (App.checkWinner b).isSome = true) := by
  have hL : b.length = 6 := hsh.1
  have hC : (b.getD 0 []).length = 7 := row_length_seven b hsh 0 (by norm_num)
  have hL6 : (b.length : Int) = 6 := by exact_mod_cast hL
  have hC7 : (b.getD 0 []).length = 7 := hC
  have hC7i : ((b.getD 0 []).length : Int) = 7 := by exact_mod_cast hC
  have hval : getCell b (r : Int) (c : Int) = getN b r c := getCell_coe b r c
  constructor
  · intro hw
    rw [checkWinner_isSome_iff]
    simp only [Server.checkWin] at hw
    rw [hval, if_neg hnz, List.any_eq_true] at hw
    obtain ⟨d, hd, hge⟩ := hw
    rw [decide_eq_true_eq] at hge
    unfold Server.countDir at hge
    set FUEL := b.length + (b.getD 0 []).length + 2 with hFUEL
    set f := Server.countDirAux b d.1 d.2 (getN b r c) ((r : Int) + d.1) ((c : Int) + d.2) FUEL
      with hfdef
    set g := Server.countDirAux b (-d.1) (-d.2) (getN b r c) ((r : Int) + -d.1) ((c : Int) + -d.2)
      FUEL with hgdef
    have hge2 : 4 ≤ 1 + f + g := hge
    have hfk : ∀ k : Nat, k < f →
        Server.DirCond b (getN b r c) ((r : Int) + ((k : Int) + 1) * d.1)
          ((c : Int) + ((k : Int) + 1) * d.2) := by
      intro k hk
      have := countDirAux_cond b d.1 d.2 (getN b r c) FUEL ((r : Int) + d.1) ((c : Int) + d.2) k hk
      have er : (r : Int) + d.1 + (k : Int) * d.1 = (r : Int) + ((k : Int) + 1) * d.1 := by ring
      have ec : (c : Int) + d.2 + (k : Int) * d.2 = (c : Int) + ((k : Int) + 1) * d.2 := by ring
      rw [er, ec] at this
      exact this
    have hgk : ∀ k : Nat, k < g →
        Server.DirCond b (getN b r c) ((r : Int) - ((k : Int) + 1) * d.1)
          ((c : Int) - ((k : Int) + 1) * d.2) := by
      intro k hk
      have := countDirAux_cond b (-d.1) (-d.2) (getN b r c) FUEL ((r : Int) + -d.1)
        ((c : Int) + -d.2) k hk
      have er : (r : Int) + -d.1 + (k : Int) * -d.1 = (r : Int) - ((k : Int) + 1) * d.1 := by ring
      have ec : (c : Int) + -d.2 + (k : Int) * -d.2 = (c : Int) - ((k : Int) + 1) * d.2 := by ring
      rw [er, ec] at this
      exact this
    set m := min g 3 with hm
    have hcell : ∀ k : Nat, k < 4 →
        Server.DirCond b (getN b r c)
          (((r : Int) - (m : Int) * d.1) + (k : Int) * d.1)
          (((c : Int) - (m : Int) * d.2) + (k : Int) * d.2) := by
      intro k hk
      rcases Nat.lt_trichotomy k m with hkm | hkm | hkm
      · have hidx : m - k - 1 < g := by omega
        have := hgk (m - k - 1) hidx
        have ecast : ((m - k - 1 : Nat) : Int) = (m : Int) - (k : Int) - 1 := by omega
        have er : (r : Int) - (((m - k - 1 : Nat) : Int) + 1) * d.1 =
            ((r : Int) - (m : Int) * d.1) + (k : Int) * d.1 := by rw [ecast]; ring
        have ec : (c : Int) - (((m - k - 1 : Nat) : Int) + 1) * d.2 =
            ((c : Int) - (m : Int) * d.2) + (k : Int) * d.2 := by rw [ecast]; ring
        rw [er, ec] at this
        exact this
      · subst hkm
        have er : ((r : Int) - (m : Int) * d.1) + (m : Int) * d.1 = (r : Int) := by ring
        have ec : ((c : Int) - (m : Int) * d.2) + (m : Int) * d.2 = (c : Int) := by ring
        rw [er, ec]
        exact ⟨by positivity, by omega, by positivity, by omega, hval⟩
      · have hg3 : m = g := by omega
        have hidx : k - m - 1 < f := by omega
        have := hfk (k - m - 1) hidx
        have ecast : ((k - m - 1 : Nat) : Int) = (k : Int) - (m : Int) - 1 := by omega
        have er : (r : Int) + (((k - m - 1 : Nat) : Int) + 1) * d.1 =
            ((r : Int) - (m : Int) * d.1) + (k : Int) * d.1 := by rw [ecast]; ring
        have ec : (c : Int) + (((k - m - 1 : Nat) : Int) + 1) * d.2 =
            ((c : Int) - (m : Int) * d.2) + (k : Int) * d.2 := by rw [ecast]; ring
        rw [er, ec] at this
        exact this
    refine ⟨(r : Int) - (m : Int) * d.1, (c : Int) - (m : Int) * d.2, d.1, d.2,
      by simpa using hd, ?_, ?_⟩
    · have h0 := hcell 0 (by omega)
      obtain ⟨-, -, -, -, hv⟩ := h0
      simp only [Nat.cast_zero, zero_mul, add_zero] at hv
      rw [hv]
      exact hnz
    · intro k hk
      have hcur := hcell k hk
      have h0 := hcell 0 (by omega)
      obtain ⟨a1, a2, a3, a4, a5⟩ := hcur
      obtain ⟨-, -, -, -, b5⟩ := h0
      simp only [Nat.cast_zero, zero_mul, add_zero] at b5
      rw [hL6] at a2
      rw [hC7i] at a4
      exact ⟨⟨a1, a2, a3, a4⟩, by rw [a5, b5]⟩
  · intro hsome
    rw [checkWinner_isSome_iff] at hsome
    obtain ⟨ar, ac, dr, dc, hd, hanchor, hcells⟩ := hsome
    by_cases hhit : ∃ k : Nat, k < 4 ∧ ar + (k : Int) * dr = (r : Int) ∧
        ac + (k : Int) * dc = (c : Int)
    · obtain ⟨k, hk4, hkr, hkc⟩ := hhit
      have hpv : getCell b ar ac = getN b r c := by
        have hcv := (hcells k hk4).2
        rw [hkr, hkc, hval] at hcv
        exact hcv.symm
      simp only [Server.checkWin]
      rw [hval, if_neg hnz, List.any_eq_true]
      refine ⟨(dr, dc), by simpa using hd, ?_⟩
      rw [decide_eq_true_eq]
      dsimp only
      unfold Server.countDir
      set FUEL := b.length + (b.getD 0 []).length + 2 with hFUEL
      have hFUEL15 : FUEL = 15 := by rw [hFUEL, hL, hC]
      have hfge : 3 - k ≤ Server.countDirAux b dr dc (getN b r c)
          ((r : Int) + dr) ((c : Int) + dc) FUEL := by
        apply countDirAux_ge
        · intro j hj
          have hcj := hcells (k + j + 1) (by omega)
          obtain ⟨⟨a1, a2, a3, a4⟩, a5⟩ := hcj
          have er : ar + ((k + j + 1 : Nat) : Int) * dr = ((r : Int) + dr) + (j : Int) * dr := by
            rw [← hkr]; push_cast; ring
          have ec : ac + ((k + j + 1 : Nat) : Int) * dc = ((c : Int) + dc) + (j : Int) * dc := by
            rw [← hkc]; push_cast; ring
          rw [er] at a1 a2 a5
          rw [ec] at a3 a4 a5
          refine ⟨a1, by omega, a3, by omega, ?_⟩
          rw [a5, hpv]
        · omega
      have hgge : k ≤ Server.countDirAux b (-dr) (-dc) (getN b r c)
          ((r : Int) + -dr) ((c : Int) + -dc) FUEL := by
        apply countDirAux_ge
        · intro j hj
          have hcj := hcells (k - j - 1) (by omega)
          obtain ⟨⟨a1, a2, a3, a4⟩, a5⟩ := hcj
          have er : ar + ((k - j - 1 : Nat) : Int) * dr = ((r : Int) + -dr) + (j : Int) * -dr := by
            rw [← hkr]
            have : ((k - j - 1 : Nat) : Int) = (k : Int) - (j : Int) - 1 := by omega
            rw [this]; ring
          have ec : ac + ((k - j - 1 : Nat) : Int) * dc = ((c : Int) + -dc) + (j : Int) * -dc := by
            rw [← hkc]
            have : ((k - j - 1 : Nat) : Int) = (k : Int) - (j : Int) - 1 := by omega
            rw [this]; ring
          rw [er] at a1 a2 a5
          rw [ec] at a3 a4 a5
          refine ⟨a1, by omega, a3, by omega, ?_⟩
          rw [a5, hpv]
        · omega
      omega
    · exfalso
      have hwpre : HasWinWindow (setCell b r c 0) := by
        refine ⟨ar, ac, dr, dc, hd, ?_, ?_⟩
        · have h0 := hhit
          push_neg at h0
          have h00 := hcells 0 (by omega)
          have hne := h0 0 (by omega)
          simp only [Nat.cast_zero, zero_mul, add_zero] at hne
          rw [getCell_setCell_out b r c 0 ar ac ?_]
          · exact hanchor
          · by_cases he : ar = (r : Int)
            · exact Or.inr (hne he)
            · exact Or.inl he
        · intro k hk
          push_neg at hhit
          have hnek := hhit k hk
          have hne0 := hhit 0 (by omega)
          simp only [Nat.cast_zero, zero_mul, add_zero] at hne0
          have hcur := hcells k hk
          have hout : getCell (setCell b r c 0) (ar + (k : Int) * dr) (ac + (k : Int) * dc) =
              getCell b (ar + (k : Int) * dr) (ac + (k : Int) * dc) := by
            apply getCell_setCell_out
            by_cases he : ar + (k : Int) * dr = (r : Int)
            · exact Or.inr (hnek he)
            · exact Or.inl he
          have hout0 : getCell (setCell b r c 0) ar ac = getCell b ar ac := by
            apply getCell_setCell_out
            by_cases he : ar = (r : Int)
            · exact Or.inr (hne0 he)
            · exact Or.inl he
          rw [hout, hout0]
          exact hcur
      rw [← checkWinner_isSome_iff, hpre] at hwpre
      exact absurd hwpre (by simp)

/-- C3 witness: completing a bottom-row run of four at (5,3) is detected by
the anchored check exactly as by the full scan. -/
theorem checkWin_iff_witness :
    Server.checkWin (setCell (setCell (setCell (setCell emptyBoard 5 0 1) 5 1 1) 5 2 1) 5 3 1)
        ((5 : Nat) : Int) ((3 : Nat) : Int) = true ↔
      (App.checkWinner
        (setCell (setCell (setCell (setCell emptyBoard 5 0 1) 5 1 1) 5 2 1) 5 3 1)).isSome =
        true :=
  checkWin_iff_checkWinner
    (setCell (setCell (setCell (setCell emptyBoard 5 0 1) 5 1 1) 5 2 1) 5 3 1) 5 3
    (by decide) (by decide) (by decide) (by decide) (by decide)
